import Mathlib

/-!
Shallow embedding of the directed-graph workflow engine in
`crates/ai/src/graph.rs` of the `ai.rs` repository, and proofs about it.

Modelling conventions:
* Node transforms (`NodeFn<T>`) are pure functions `T → Except String T`;
  the `async` wrapper and the boxed error are modelled by the pure result,
  with the error's `to_string()` being the `String` payload itself.
* Conditional predicates (`ConditionalFn<T>`) are pure functions `T → String`.
* `HashMap<String, _>` registries are modelled as association lists with
  HashMap insert semantics (`insert` replaces the value of an existing key);
  only key lookup and key membership are ever used by the engine, so list
  order is irrelevant except that it records insertion order.
* The `loop` in `execute` / `execute_with_start` is modelled with explicit
  fuel: `none` means the fuel ran out before the loop finished, `some r`
  means the loop finished with result `r`.
-/

namespace AiGraph

/-- `pub const START: &str = "__start__";` -/
def START : String := "__start__"

/-- `pub const END: &str = "__end__";` -/
def END : String := "__end__"

/-- Association-list lookup, modelling `HashMap::get` (and `contains_key`
via `Option.isSome`). -/
def lookupStr {α : Type} : List (String × α) → String → Option α
  | [], _ => none
  | (k, v) :: rest, key => if k == key then some v else lookupStr rest key

/-- `HashMap::contains_key`. -/
def containsKey {α : Type} (l : List (String × α)) (key : String) : Bool :=
  (lookupStr l key).isSome

/-- `HashMap::insert`: replace the value when the key is present, append
the binding otherwise. -/
def insertStr {α : Type} : List (String × α) → String → α → List (String × α)
  | [], key, v => [(key, v)]
  | (k, w) :: rest, key, v =>
    if k == key then (k, v) :: rest else (k, w) :: insertStr rest key v

/-- `pub struct Edge { pub from: String, pub to: String }` (`from` and `to` are
Lean keywords, hence the trailing underscores). -/
structure Edge where
  from_ : String
  to_ : String
deriving DecidableEq, Repr

/-- `pub struct ConditionalEdge<T> { from, condition, mapping }`. The
`HashMap<String, String>` mapping is an association list with distinct keys
in practice; the engine only performs key lookups on it. -/
structure ConditionalEdge (T : Type) where
  from_ : String
  condition : T → String
  mapping : List (String × String)

/-- `pub struct Graph<T>`: node registry, edge list, conditional-edge list,
optional entry point. -/
structure Graph (T : Type) where
  nodes : List (String × (T → Except String T))
  edges : List Edge
  conditional_edges : List (ConditionalEdge T)
  entry_point : Option String

/-- `pub enum GraphError`. -/
inductive GraphError where
  | NodeNotFound (name : String)
  | ExecutionError (msg : String)
  | NoEntryPoint
deriving DecidableEq, Repr

/-- `Graph::new()`. -/
def Graph.new {T : Type} : Graph T :=
  { nodes := [], edges := [], conditional_edges := [], entry_point := none }

/-- `Graph::add_node`: `self.nodes.insert(name, boxed_fn)`. -/
def Graph.add_node {T : Type} (g : Graph T) (name : String)
    (f : T → Except String T) : Graph T :=
  { g with nodes := insertStr g.nodes name f }

/-- `Graph::add_edge`: push onto the edge list. -/
def Graph.add_edge {T : Type} (g : Graph T) (from_ to_ : String) : Graph T :=
  { g with edges := g.edges ++ [{ from_ := from_, to_ := to_ }] }

/-- `Graph::add_conditional_edges`: push onto the conditional-edge list. -/
def Graph.add_conditional_edges {T : Type} (g : Graph T) (from_ : String)
    (condition : T → String) (mapping : List (String × String)) : Graph T :=
  { g with conditional_edges :=
      g.conditional_edges ++
        [{ from_ := from_, condition := condition, mapping := mapping }] }

/-- The loop over `self.edges` in `Graph::validate`: return the first
offending identifier, checking `from` (must be `START` or registered) before
`to` (must be `END` or registered). -/
def validateEdges {T : Type} (nodes : List (String × (T → Except String T))) :
    List Edge → Option GraphError
  | [] => none
  | e :: rest =>
    if e.from_ != START && !containsKey nodes e.from_ then
      some (.NodeNotFound e.from_)
    else if e.to_ != END && !containsKey nodes e.to_ then
      some (.NodeNotFound e.to_)
    else validateEdges nodes rest

/-- The inner loop over `conditional_edge.mapping.values()` in
`Graph::validate`: each target must be `END` or registered. -/
def validateMapping {T : Type} (nodes : List (String × (T → Except String T))) :
    List (String × String) → Option GraphError
  | [] => none
  | (_, target) :: rest =>
    if target != END && !containsKey nodes target then
      some (.NodeNotFound target)
    else validateMapping nodes rest

/-- The loop over `self.conditional_edges` in `Graph::validate`: `from` must
be registered, then every mapping value is checked. -/
def validateCondEdges {T : Type} (nodes : List (String × (T → Except String T))) :
    List (ConditionalEdge T) → Option GraphError
  | [] => none
  | ce :: rest =>
    if !containsKey nodes ce.from_ then
      some (.NodeNotFound ce.from_)
    else
      match validateMapping nodes ce.mapping with
      | some err => some err
      | none => validateCondEdges nodes rest

/-- `Graph::validate`: edges first, then conditional edges; `none` means
validation succeeded. -/
def Graph.validate {T : Type} (g : Graph T) : Option GraphError :=
  match validateEdges g.nodes g.edges with
  | some err => some err
  | none => validateCondEdges g.nodes g.conditional_edges

/-- `pub struct CompiledGraph<T>`: the same four collections, frozen. -/
structure CompiledGraph (T : Type) where
  nodes : List (String × (T → Except String T))
  edges : List Edge
  conditional_edges : List (ConditionalEdge T)
  entry_point : Option String

/-- `Graph::compile`: validate, then freeze the collections unchanged. -/
def Graph.compile {T : Type} (g : Graph T) : Except GraphError (CompiledGraph T) :=
  match g.validate with
  | some err => .error err
  | none =>
    .ok { nodes := g.nodes, edges := g.edges,
          conditional_edges := g.conditional_edges,
          entry_point := g.entry_point }

/-- The loop over `self.conditional_edges` in `CompiledGraph::get_next_node`:
for each conditional edge whose `from` matches, evaluate the predicate and
look the label up in the mapping; a miss falls through to the next edge. -/
def getNextCond {T : Type} (current : String) (data : T) :
    List (ConditionalEdge T) → Option String
  | [] => none
  | ce :: rest =>
    if ce.from_ == current then
      match lookupStr ce.mapping (ce.condition data) with
      | some target => some target
      | none => getNextCond current data rest
    else getNextCond current data rest

/-- The loop over `self.edges` in `CompiledGraph::get_next_node`: the first
edge whose `from` matches gives the target. -/
def findEdge (current : String) : List Edge → Option String
  | [] => none
  | e :: rest => if e.from_ == current then some e.to_ else findEdge current rest

/-- `CompiledGraph::get_next_node` (its `Result` wrapper never carries an
error in the source, so the model returns the `Option` directly). -/
def CompiledGraph.get_next_node {T : Type} (g : CompiledGraph T)
    (current : String) (data : T) : Option String :=
  match getNextCond current data g.conditional_edges with
  | some target => some target
  | none => findEdge current g.edges

/-- One invocation recorded by the instrumented executor: the node name, the
state handed to its transform, and either the produced state or the error
message the transform raised. -/
inductive TraceEntry (T : Type) where
  | ok (node : String) (input output : T)
  | fail (node : String) (input : T) (msg : String)
deriving DecidableEq, Repr

/-- The body of the `loop` shared verbatim by `CompiledGraph::execute` and
`CompiledGraph::execute_with_start`, with explicit fuel (`none` = the loop
had not finished after `fuel` iterations). Each iteration: look the current
node up (absence is `NodeNotFound`), run its transform (a failure is wrapped
as `ExecutionError`), resolve the next node from the post-transform state;
`END` or no next node ends the loop with the current state. -/
def execLoop {T : Type} (g : CompiledGraph T) :
    Nat → String → T → Option (Except GraphError T)
  | 0, _, _ => none
  | fuel + 1, current, data =>
    match lookupStr g.nodes current with
    | none => some (.error (.NodeNotFound current))
    | some f =>
      match f data with
      | .error e => some (.error (.ExecutionError e))
      | .ok data' =>
        match g.get_next_node current data' with
        | none => some (.ok data')
        | some next =>
          if next == END then some (.ok data')
          else execLoop g fuel next data'

/-- The same loop, also returning the list of transform invocations it
performed, in order. -/
def execLoopTrace {T : Type} (g : CompiledGraph T) :
    Nat → String → T → Option (Except GraphError T × List (TraceEntry T))
  | 0, _, _ => none
  | fuel + 1, current, data =>
    match lookupStr g.nodes current with
    | none => some (.error (.NodeNotFound current), [])
    | some f =>
      match f data with
      | .error e => some (.error (.ExecutionError e), [.fail current data e])
      | .ok data' =>
        match g.get_next_node current data' with
        | none => some (.ok data', [.ok current data data'])
        | some next =>
          if next == END then some (.ok data', [.ok current data data'])
          else
            match execLoopTrace g fuel next data' with
            | none => none
            | some (res, tr) => some (res, .ok current data data' :: tr)

/-- Start-node resolution at the head of `CompiledGraph::execute`: the first
edge whose `from` is `START` wins, `.or(self.entry_point)` otherwise. -/
def CompiledGraph.start_node {T : Type} (g : CompiledGraph T) : Option String :=
  (findEdge START g.edges).or g.entry_point

/-- `CompiledGraph::execute`, with fuel for the loop. -/
def CompiledGraph.execute {T : Type} (g : CompiledGraph T) (fuel : Nat)
    (input : T) : Option (Except GraphError T) :=
  match g.start_node with
  | none => some (.error .NoEntryPoint)
  | some s => execLoop g fuel s input

/-- `CompiledGraph::execute_with_start`: the same loop, started at the given
node, with no entry-point resolution. -/
def CompiledGraph.execute_with_start {T : Type} (g : CompiledGraph T)
    (fuel : Nat) (startName : String) (input : T) :
    Option (Except GraphError T) :=
  execLoop g fuel startName input

/-- Instrumented `execute`: same resolution, trace-carrying loop.
A `NoEntryPoint` failure happens before any transform runs, so its trace is
empty. -/
def CompiledGraph.executeTrace {T : Type} (g : CompiledGraph T) (fuel : Nat)
    (input : T) : Option (Except GraphError T × List (TraceEntry T)) :=
  match g.start_node with
  | none => some (.error .NoEntryPoint, [])
  | some s => execLoopTrace g fuel s input

/-- The instrumented loop computes the same result as the plain loop. -/
theorem execLoopTrace_fst {T : Type} (g : CompiledGraph T) :
    ∀ (fuel : Nat) (current : String) (data : T),
      (execLoopTrace g fuel current data).map Prod.fst =
        execLoop g fuel current data := by
  intro fuel
  induction fuel with
  | zero => intro current data; rfl
  | succ n ih =>
    intro current data
    simp only [execLoopTrace, execLoop]
    split
    · rfl
    · split
      · rfl
      · split
        · rfl
        · split
          · rfl
          · rw [← ih]
            cases execLoopTrace g n _ _ with
            | none => rfl
            | some p => obtain ⟨res, tr⟩ := p; rfl

/-- The conditional scan of `get_next_node` equals a filter-then-first-hit
over the declaration-ordered conditional-edge list. -/
theorem getNextCond_eq_findSome {T : Type} (current : String) (data : T) :
    ∀ l : List (ConditionalEdge T),
      getNextCond current data l =
        (l.filter (fun ce => ce.from_ == current)).findSome?
          (fun ce => lookupStr ce.mapping (ce.condition data)) := by
  intro l
  induction l with
  | nil => rfl
  | cons ce rest ih =>
    simp only [getNextCond, List.filter_cons]
    by_cases h : ce.from_ == current
    · simp only [h, if_true, List.findSome?_cons]
      cases hm : lookupStr ce.mapping (ce.condition data) with
      | none => simpa [hm] using ih
      | some t => simp [hm]
    · simp only [h]
      simpa using ih

/-- The unconditional scan of `get_next_node` equals `find?`-then-target
over the declaration-ordered edge list. -/
theorem findEdge_eq_find (current : String) :
    ∀ l : List Edge,
      findEdge current l =
        (l.find? (fun e => e.from_ == current)).map (fun e => e.to_) := by
  intro l
  induction l with
  | nil => rfl
  | cons e rest ih =>
    simp only [findEdge, List.find?_cons]
    by_cases h : e.from_ == current
    · simp [h]
    · simp [h, ih]

/-- Claim C1: next-node resolution consults conditional edges before
unconditional ones. Among the conditional edges whose `from` equals the
current node, in declaration order, the first whose predicate label is
present in its mapping supplies the target (a label absent from a mapping
falls through to the next matching conditional edge, not an error); only
when no conditional edge matches is the target of the first unconditional
edge from the current node returned; when neither matches, resolution
reports no next node. -/
theorem C1_get_next_node_order {T : Type} (g : CompiledGraph T)
    (current : String) (data : T) :
    g.get_next_node current data =
      ((g.conditional_edges.filter (fun ce => ce.from_ == current)).findSome?
          (fun ce => lookupStr ce.mapping (ce.condition data))).or
        ((g.edges.find? (fun e => e.from_ == current)).map (fun e => e.to_)) := by
  rw [CompiledGraph.get_next_node, ← getNextCond_eq_findSome, ← findEdge_eq_find]
  generalize getNextCond current data g.conditional_edges = X
  cases X <;> rfl

/-- Spec-side description: the offending identifiers of an edge list, in the
scan order of `Graph::validate` (`from` before `to`, edges in declaration
order). -/
def edgeOffenders {T : Type} (nodes : List (String × (T → Except String T))) :
    List Edge → List String
  | [] => []
  | e :: rest =>
    (if e.from_ != START && !containsKey nodes e.from_ then [e.from_] else []) ++
    (if e.to_ != END && !containsKey nodes e.to_ then [e.to_] else []) ++
    edgeOffenders nodes rest

/-- Spec-side description: the offending targets of a conditional-edge
mapping, in scan order. -/
def mappingOffenders {T : Type} (nodes : List (String × (T → Except String T))) :
    List (String × String) → List String
  | [] => []
  | (_, target) :: rest =>
    (if target != END && !containsKey nodes target then [target] else []) ++
    mappingOffenders nodes rest

/-- Spec-side description: the offending identifiers of a conditional-edge
list, in scan order (`from` before the mapping targets). -/
def condOffenders {T : Type} (nodes : List (String × (T → Except String T))) :
    List (ConditionalEdge T) → List String
  | [] => []
  | ce :: rest =>
    (if !containsKey nodes ce.from_ then [ce.from_] else []) ++
    mappingOffenders nodes ce.mapping ++
    condOffenders nodes rest

/-- Spec-side description: all offending identifiers of a graph, in the scan
order of `Graph::validate` (edges before conditional edges). -/
def Graph.offenders {T : Type} (g : Graph T) : List String :=
  edgeOffenders g.nodes g.edges ++ condOffenders g.nodes g.conditional_edges

theorem validateEdges_eq_offenders {T : Type}
    (nodes : List (String × (T → Except String T))) :
    ∀ es : List Edge,
      validateEdges nodes es =
        (edgeOffenders nodes es).head?.map GraphError.NodeNotFound := by
  intro es
  induction es with
  | nil => rfl
  | cons e rest ih =>
    simp only [validateEdges, edgeOffenders]
    by_cases h1 : e.from_ != START && !containsKey nodes e.from_
    · simp [h1]
    · by_cases h2 : e.to_ != END && !containsKey nodes e.to_
      · simp [h1, h2]
      · simp [h1, h2, ih]

theorem validateMapping_eq_offenders {T : Type}
    (nodes : List (String × (T → Except String T))) :
    ∀ m : List (String × String),
      validateMapping nodes m =
        (mappingOffenders nodes m).head?.map GraphError.NodeNotFound := by
  intro m
  induction m with
  | nil => rfl
  | cons p rest ih =>
    obtain ⟨lbl, target⟩ := p
    simp only [validateMapping, mappingOffenders]
    by_cases h : target != END && !containsKey nodes target
    · simp [h]
    · simp [h, ih]

theorem validateCondEdges_eq_offenders {T : Type}
    (nodes : List (String × (T → Except String T))) :
    ∀ cs : List (ConditionalEdge T),
      validateCondEdges nodes cs =
        (condOffenders nodes cs).head?.map GraphError.NodeNotFound := by
  intro cs
  induction cs with
  | nil => rfl
  | cons ce rest ih =>
    simp only [validateCondEdges, condOffenders]
    by_cases h1 : containsKey nodes ce.from_
    · simp only [h1, Bool.not_true, Bool.false_eq_true, if_false,
        List.nil_append]
      rw [validateMapping_eq_offenders]
      cases hm : mappingOffenders nodes ce.mapping with
      | nil => simp [ih]
      | cons x xs => simp
    · simp [h1]

theorem validate_eq_offenders {T : Type} (g : Graph T) :
    g.validate = (Graph.offenders g).head?.map GraphError.NodeNotFound := by
  rw [Graph.validate, Graph.offenders, validateEdges_eq_offenders]
  cases he : edgeOffenders g.nodes g.edges with
  | nil => simp [validateCondEdges_eq_offenders]
  | cons x xs => simp

/-- Spec-side condition on the edge list: every `from` is `START` or a
registered node; every `to` is `END` or a registered node. -/
def EdgeEndpointsValid {T : Type} (g : Graph T) : Prop :=
  ∀ e ∈ g.edges,
    (e.from_ = START ∨ containsKey g.nodes e.from_ = true) ∧
    (e.to_ = END ∨ containsKey g.nodes e.to_ = true)

/-- Spec-side condition on the conditional-edge list: every `from` is a
registered node; every mapping value is `END` or a registered node. -/
def CondEdgesValid {T : Type} (g : Graph T) : Prop :=
  ∀ ce ∈ g.conditional_edges,
    containsKey g.nodes ce.from_ = true ∧
    ∀ p ∈ ce.mapping, p.2 = END ∨ containsKey g.nodes p.2 = true

theorem edgeOffenders_nil_iff {T : Type}
    (nodes : List (String × (T → Except String T))) :
    ∀ es : List Edge,
      edgeOffenders nodes es = [] ↔
        ∀ e ∈ es,
          (e.from_ = START ∨ containsKey nodes e.from_ = true) ∧
          (e.to_ = END ∨ containsKey nodes e.to_ = true) := by
  intro es
  induction es with
  | nil => simp [edgeOffenders]
  | cons e rest ih =>
    simp only [edgeOffenders, List.append_eq_nil, List.mem_cons]
    constructor
    · rintro ⟨⟨h1, h2⟩, h3⟩
      intro x hx
      rcases hx with hx | hx
      · subst hx
        constructor
        · by_contra hc
          push_neg at hc
          simp [hc.1, hc.2] at h1
        · by_contra hc
          push_neg at hc
          simp [hc.1, hc.2] at h2
      · exact (ih.mp h3) x hx
    · intro h
      refine ⟨⟨?_, ?_⟩, ih.mpr fun x hx => h x (Or.inr hx)⟩
      · rcases (h e (Or.inl rfl)).1 with hc | hc <;> simp [hc]
      · rcases (h e (Or.inl rfl)).2 with hc | hc <;> simp [hc]

theorem mappingOffenders_nil_iff {T : Type}
    (nodes : List (String × (T → Except String T))) :
    ∀ m : List (String × String),
      mappingOffenders nodes m = [] ↔
        ∀ p ∈ m, p.2 = END ∨ containsKey nodes p.2 = true := by
  intro m
  induction m with
  | nil => simp [mappingOffenders]
  | cons p rest ih =>
    obtain ⟨lbl, target⟩ := p
    simp only [mappingOffenders, List.append_eq_nil, List.mem_cons]
    constructor
    · rintro ⟨h1, h2⟩
      intro x hx
      rcases hx with hx | hx
      · subst hx
        by_contra hc
        push_neg at hc
        simp [hc.1, hc.2] at h1
      · exact (ih.mp h2) x hx
    · intro h
      refine ⟨?_, ih.mpr fun x hx => h x (Or.inr hx)⟩
      rcases h (lbl, target) (Or.inl rfl) with hc | hc <;> simp at hc <;> simp [hc]

theorem condOffenders_nil_iff {T : Type}
    (nodes : List (String × (T → Except String T))) :
    ∀ cs : List (ConditionalEdge T),
      condOffenders nodes cs = [] ↔
        ∀ ce ∈ cs,
          containsKey nodes ce.from_ = true ∧
          ∀ p ∈ ce.mapping, p.2 = END ∨ containsKey nodes p.2 = true := by
  intro cs
  induction cs with
  | nil => simp [condOffenders]
  | cons ce rest ih =>
    simp only [condOffenders, List.append_eq_nil, List.mem_cons]
    constructor
    · rintro ⟨⟨h1, h2⟩, h3⟩
      intro x hx
      rcases hx with hx | hx
      · subst hx
        constructor
        · by_contra hc
          simp [hc] at h1
        · exact (mappingOffenders_nil_iff nodes _).mp h2
      · exact (ih.mp h3) x hx
    · intro h
      refine ⟨⟨?_, ?_⟩, ih.mpr fun x hx => h x (Or.inr hx)⟩
      · simp [(h ce (Or.inl rfl)).1]
      · exact (mappingOffenders_nil_iff nodes ce.mapping).mpr (h ce (Or.inl rfl)).2

/-- The graph refuting claim C3 as stated: a single edge both of whose
endpoints are the sentinel `END`, and no registered nodes. -/
def badSentinelGraph : Graph Unit :=
  { nodes := [], edges := [{ from_ := END, to_ := END }],
    conditional_edges := [], entry_point := none }

/-- Counterexample to claim C3 as stated: in `badSentinelGraph` every edge
endpoint is a sentinel (`END` on both sides), yet `compile` fails with
`NodeNotFound "__end__"` — the validator accepts only `START` as a `from`
sentinel and only `END` as a `to` sentinel, not either sentinel on either
side. -/
theorem C3_counterexample :
    (∀ e ∈ badSentinelGraph.edges,
        (e.from_ = START ∨ e.from_ = END) ∧ (e.to_ = START ∨ e.to_ = END)) ∧
    badSentinelGraph.compile = .error (.NodeNotFound "__end__") := by
  constructor
  · intro e he
    simp only [badSentinelGraph, List.mem_singleton] at he
    subst he
    exact ⟨Or.inr rfl, Or.inr rfl⟩
  · rfl

/-- Claim C3 (amended): `compile()` succeeds exactly when every edge's
`from` is `START` or a registered node, every edge's `to` is `END` or a
registered node, every conditional edge's `from` is a registered node, and
every conditional-edge mapping value is `END` or a registered node;
otherwise it fails with `NodeNotFound` carrying the first offending
identifier in scan order, and on success the compiled graph carries exactly
the builder's four collections — no partially compiled graph exists. -/
theorem C3_compile_validation {T : Type} (g : Graph T) :
    (g.validate = none ↔ EdgeEndpointsValid g ∧ CondEdgesValid g) ∧
    (g.validate = (Graph.offenders g).head?.map GraphError.NodeNotFound) ∧
    (∀ err, g.validate = some err → g.compile = .error err) ∧
    (g.validate = none →
      ∃ cg, g.compile = .ok cg ∧ cg.nodes = g.nodes ∧ cg.edges = g.edges ∧
        cg.conditional_edges = g.conditional_edges ∧
        cg.entry_point = g.entry_point) := by
  refine ⟨?_, validate_eq_offenders g, ?_, ?_⟩
  · rw [validate_eq_offenders, Option.map_eq_none', List.head?_eq_none_iff,
      Graph.offenders, List.append_eq_nil, edgeOffenders_nil_iff,
      condOffenders_nil_iff]
    exact Iff.rfl
  · intro err h
    simp [Graph.compile, h]
  · intro h
    exact ⟨{ nodes := g.nodes, edges := g.edges,
             conditional_edges := g.conditional_edges,
             entry_point := g.entry_point },
           by simp [Graph.compile, h], rfl, rfl, rfl, rfl⟩

/-- A concrete well-formed graph: one node `"a"`, entered from `START` and
exiting to `END`. -/
def okGraph : Graph Unit :=
  ((Graph.new.add_node "a" (fun s => .ok s)).add_edge START "a").add_edge "a" END

/-- Witness for C3: the amended theorem applied to the concrete `okGraph`,
whose validation succeeds, so compilation produces its collections
unchanged. -/
theorem C3_witness :
    ∃ cg, okGraph.compile = .ok cg ∧ cg.nodes = okGraph.nodes ∧
      cg.edges = okGraph.edges ∧
      cg.conditional_edges = okGraph.conditional_edges ∧
      cg.entry_point = okGraph.entry_point :=
  (C3_compile_validation okGraph).2.2.2 rfl

/-- The compiled graph refuting claim C4 as stated: it records entry point
`"a"`, but also has an edge sourced from `START` aimed at `"b"`. -/
def entryCexGraph : CompiledGraph Nat :=
  { nodes := [("a", fun _ => .ok 1), ("b", fun _ => .ok 2)],
    edges := [{ from_ := START, to_ := "b" }],
    conditional_edges := [], entry_point := some "a" }

/-- Counterexample to claim C4 as stated: `entryCexGraph` records the entry
point `"a"`, yet execution begins at `"b"` (the run's only invocation is of
`"b"`, and the result is `"b"`'s output `2`, not `"a"`'s output `1`): the
code consults the first edge sourced from `START` before the recorded
entry point. -/
theorem C4_counterexample :
    entryCexGraph.entry_point = some "a" ∧
    entryCexGraph.executeTrace 5 0 = some (.ok 2, [TraceEntry.ok "b" 0 2]) :=
  ⟨rfl, rfl⟩

/-- Claim C4 (amended): `execute` resolves its start node as the target of
the first edge sourced from `START` when one exists; the recorded
`entry_point` is used only when no such edge exists; when neither is
present, `execute` fails with `NoEntryPoint` before invoking any node
transform (its invocation trace is empty). -/
theorem C4_start_resolution {T : Type} (g : CompiledGraph T) (fuel : Nat)
    (input : T) :
    (∀ t, findEdge START g.edges = some t →
        g.executeTrace fuel input = execLoopTrace g fuel t input) ∧
    (∀ e, findEdge START g.edges = none → g.entry_point = some e →
        g.executeTrace fuel input = execLoopTrace g fuel e input) ∧
    (findEdge START g.edges = none → g.entry_point = none →
        g.executeTrace fuel input = some (.error .NoEntryPoint, [])) := by
  refine ⟨?_, ?_, ?_⟩
  · intro t h
    simp [CompiledGraph.executeTrace, CompiledGraph.start_node, h, Option.or]
  · intro e h1 h2
    simp [CompiledGraph.executeTrace, CompiledGraph.start_node, h1, h2,
      Option.or]
  · intro h1 h2
    simp [CompiledGraph.executeTrace, CompiledGraph.start_node, h1, h2,
      Option.or]

/-- A compiled graph with a recorded entry point and no `START` edge. -/
def entryOnlyGraph : CompiledGraph Nat :=
  { nodes := [("a", fun n => .ok (n + 1))], edges := [],
    conditional_edges := [], entry_point := some "a" }

/-- A compiled graph with no entry point and no `START` edge. -/
def noEntryGraph : CompiledGraph Nat :=
  { nodes := [("a", fun n => .ok (n + 1))], edges := [],
    conditional_edges := [], entry_point := none }

/-- Witness for C4: with no `START` edge the recorded entry point `"a"` is
used; with neither, the run fails with `NoEntryPoint` and an empty trace. -/
theorem C4_witness :
    (entryOnlyGraph.executeTrace 3 0 = execLoopTrace entryOnlyGraph 3 "a" 0) ∧
    (noEntryGraph.executeTrace 3 0 = some (.error .NoEntryPoint, [])) :=
  ⟨(C4_start_resolution entryOnlyGraph 3 0).2.1 "a" rfl rfl,
   (C4_start_resolution noEntryGraph 3 0).2.2 rfl rfl⟩

/-- Claim C5: in any execution (`execute` and `execute_with_start` share
this loop), if after the current node's transform the resolver finds no
next node at all, or finds the `END` sentinel, the run stops and returns
`Ok` with the post-transform state — implicit termination is not
distinguished from reaching `END`. -/
theorem C5_no_transition_success {T : Type} (g : CompiledGraph T)
    (fuel : Nat) (current : String) (data data' : T)
    (f : T → Except String T)
    (hf : lookupStr g.nodes current = some f)
    (ht : f data = .ok data')
    (hn : g.get_next_node current data' = none ∨
          g.get_next_node current data' = some END) :
    execLoop g (fuel + 1) current data = some (.ok data') ∧
    g.execute_with_start (fuel + 1) current data = some (.ok data') := by
  have key : execLoop g (fuel + 1) current data = some (.ok data') := by
    simp only [execLoop, hf, ht]
    rcases hn with hn | hn <;> simp [hn]
  exact ⟨key, key⟩

/-- Witness for C5: in `noEntryGraph`, node `"a"` maps `0` to `1` and has no
outgoing transition, so the run started at `"a"` ends successfully with
state `1`. -/
theorem C5_witness :
    execLoop noEntryGraph 1 "a" 0 = some (.ok 1) ∧
    noEntryGraph.execute_with_start 1 "a" 0 = some (.ok 1) :=
  C5_no_transition_success noEntryGraph 0 "a" 0 1 (fun n => .ok (n + 1))
    rfl rfl (Or.inl rfl)

/-- Whether a trace entry records a successful transform invocation. -/
def TraceEntry.isOk {T : Type} : TraceEntry T → Bool
  | .ok _ _ _ => true
  | .fail _ _ _ => false

/-- Claim C6: if a node transform fails during a run, the run immediately
returns `ExecutionError` wrapping that transform's error message, and the
failing invocation is the last invocation of the run — every earlier
invocation succeeded, and no transform runs afterwards. -/
theorem C6_execution_error_stops {T : Type} (g : CompiledGraph T) :
    ∀ (fuel : Nat) (current : String) (data : T) (m : String)
      (tr : List (TraceEntry T)),
      execLoopTrace g fuel current data =
          some (.error (.ExecutionError m), tr) →
      ∃ pre n i f, tr = pre ++ [TraceEntry.fail n i m] ∧
        (∀ x ∈ pre, TraceEntry.isOk x = true) ∧
        lookupStr g.nodes n = some f ∧ f i = .error m := by
  intro fuel
  induction fuel with
  | zero => intro current data m tr h; simp [execLoopTrace] at h
  | succ k ih =>
    intro current data m tr h
    rw [execLoopTrace] at h
    cases h1 : lookupStr g.nodes current with
    | none => rw [h1] at h; simp at h
    | some f =>
      rw [h1] at h
      dsimp only at h
      cases h2 : f data with
      | error e =>
        rw [h2] at h
        dsimp only at h
        simp only [Option.some.injEq, Prod.mk.injEq, Except.error.injEq,
          GraphError.ExecutionError.injEq] at h
        obtain ⟨rfl, htr⟩ := h
        exact ⟨[], current, data, f, htr.symm, by simp, h1, h2⟩
      | ok data' =>
        rw [h2] at h
        dsimp only at h
        cases h3 : g.get_next_node current data' with
        | none => rw [h3] at h; simp at h
        | some next =>
          rw [h3] at h
          dsimp only at h
          by_cases h4 : next == END
          · simp [h4] at h
          · simp only [h4, Bool.false_eq_true, if_false] at h
            cases h5 : execLoopTrace g k next data' with
            | none => rw [h5] at h; simp at h
            | some p =>
              rw [h5] at h
              dsimp only at h
              obtain ⟨res', tr'⟩ := p
              simp only [Option.some.injEq, Prod.mk.injEq] at h
              obtain ⟨hres, htr⟩ := h
              obtain ⟨pre', n, i, f', hA, hB, hC, hD⟩ :=
                ih next data' m tr' (by rw [h5, hres])
              refine ⟨TraceEntry.ok current data data' :: pre', n, i, f',
                ?_, ?_, hC, hD⟩
              · rw [← htr, hA]; rfl
              · intro x hx
                rcases List.mem_cons.mp hx with hx | hx
                · subst hx; rfl
                · exact hB x hx

/-- A compiled graph whose node `"b"` always fails, reached from `"a"`. -/
def failingGraph : CompiledGraph Nat :=
  { nodes := [("a", fun n => .ok (n + 1)), ("b", fun _ => .error "boom")],
    edges := [{ from_ := START, to_ := "a" }, { from_ := "a", to_ := "b" }],
    conditional_edges := [], entry_point := none }

/-- Witness for C6: running `failingGraph` from `"a"` invokes `"a"`
successfully, then `"b"` fails with message `"boom"`; the theorem applied at
this run shows the failing invocation closes the trace. -/
theorem C6_witness :
    ∃ pre n i f,
      [TraceEntry.ok "a" 0 1, TraceEntry.fail "b" 1 "boom"] =
        pre ++ [TraceEntry.fail n i "boom"] ∧
      (∀ x ∈ pre, TraceEntry.isOk x = true) ∧
      lookupStr failingGraph.nodes n = some f ∧ f i = .error "boom" :=
  C6_execution_error_stops failingGraph 5 "a" 0 "boom"
    [TraceEntry.ok "a" 0 1, TraceEntry.fail "b" 1 "boom"] rfl

/-- The last entry of a trace, if any. -/
def lastEntry? {T : Type} : List (TraceEntry T) → Option (TraceEntry T)
  | [] => none
  | [x] => some x
  | _ :: y :: rest => lastEntry? (y :: rest)

theorem lastEntry?_cons {T : Type} (x : TraceEntry T)
    (rest : List (TraceEntry T)) (h : rest ≠ []) :
    lastEntry? (x :: rest) = lastEntry? rest := by
  cases rest with
  | nil => exact absurd rfl h
  | cons y ys => rfl

/-- The threading discipline of the execution loop, relative to the state
the loop was entered with: the first recorded invocation receives exactly
that state, each successful invocation's output is the input of the next,
and a failed invocation can only be last. -/
def chainedFrom {T : Type} (s : T) : List (TraceEntry T) → Prop
  | [] => True
  | .ok _ i o :: rest => i = s ∧ chainedFrom o rest
  | .fail _ i _ :: rest => i = s ∧ rest = []

/-- Claim C9: in every iteration, the state passed to the next node's
transform is exactly the value the current node's transform returned
(predicates receive only a copy and cannot alter the threaded state, which
in this embedding is visible in their type `T → String`), and a run that
ends in `Ok` returns the last transform's output unmodified. -/
theorem C9_state_threading {T : Type} (g : CompiledGraph T) :
    ∀ (fuel : Nat) (current : String) (s : T)
      (res : Except GraphError T) (tr : List (TraceEntry T)),
      execLoopTrace g fuel current s = some (res, tr) →
      chainedFrom s tr ∧
        ∀ r, res = .ok r → ∃ n i, lastEntry? tr = some (.ok n i r) := by
  intro fuel
  induction fuel with
  | zero => intro current s res tr h; simp [execLoopTrace] at h
  | succ k ih =>
    intro current s res tr h
    rw [execLoopTrace] at h
    cases h1 : lookupStr g.nodes current with
    | none =>
      rw [h1] at h
      dsimp only at h
      simp only [Option.some.injEq, Prod.mk.injEq] at h
      obtain ⟨hres, htr⟩ := h
      subst htr
      exact ⟨trivial, fun r hr => by rw [← hres] at hr; exact absurd hr (by simp)⟩
    | some f =>
      rw [h1] at h
      dsimp only at h
      cases h2 : f s with
      | error e =>
        rw [h2] at h
        dsimp only at h
        simp only [Option.some.injEq, Prod.mk.injEq] at h
        obtain ⟨hres, htr⟩ := h
        subst htr
        exact ⟨⟨rfl, rfl⟩,
          fun r hr => by rw [← hres] at hr; exact absurd hr (by simp)⟩
      | ok data' =>
        rw [h2] at h
        dsimp only at h
        cases h3 : g.get_next_node current data' with
        | none =>
          rw [h3] at h
          dsimp only at h
          simp only [Option.some.injEq, Prod.mk.injEq] at h
          obtain ⟨hres, htr⟩ := h
          subst htr
          refine ⟨⟨rfl, trivial⟩, fun r hr => ?_⟩
          rw [← hres] at hr
          simp only [Except.ok.injEq] at hr
          exact ⟨current, s, by subst hr; rfl⟩
        | some next =>
          rw [h3] at h
          dsimp only at h
          by_cases h4 : next == END
          · simp only [h4, if_true] at h
            simp only [Option.some.injEq, Prod.mk.injEq] at h
            obtain ⟨hres, htr⟩ := h
            subst htr
            refine ⟨⟨rfl, trivial⟩, fun r hr => ?_⟩
            rw [← hres] at hr
            simp only [Except.ok.injEq] at hr
            exact ⟨current, s, by subst hr; rfl⟩
          · simp only [h4, Bool.false_eq_true, if_false] at h
            cases h5 : execLoopTrace g k next data' with
            | none => rw [h5] at h; simp at h
            | some p =>
              rw [h5] at h
              dsimp only at h
              obtain ⟨res', tr'⟩ := p
              simp only [Option.some.injEq, Prod.mk.injEq] at h
              obtain ⟨hres, htr⟩ := h
              subst htr
              obtain ⟨hchain, hlast⟩ := ih next data' res' tr' h5
              refine ⟨⟨rfl, hchain⟩, fun r hr => ?_⟩
              obtain ⟨n, i, hl⟩ := hlast r (by rw [hres, hr])
              have hne : tr' ≠ [] := by
                intro hnil
                rw [hnil] at hl
                exact absurd hl (by simp [lastEntry?])
              exact ⟨n, i, by rw [lastEntry?_cons _ _ hne, hl]⟩

/-- The linear graph A → B → END where each node adds one. -/
def linearGraph : CompiledGraph Nat :=
  { nodes := [("a", fun n => .ok (n + 1)), ("b", fun n => .ok (n + 1))],
    edges := [{ from_ := START, to_ := "a" }, { from_ := "a", to_ := "b" },
              { from_ := "b", to_ := END }],
    conditional_edges := [], entry_point := none }

/-- Witness for C9: the successful run of `linearGraph` from `"a"` on `0`
threads `0 → 1 → 2` and returns the last output `2`. -/
theorem C9_witness :
    chainedFrom 0 [TraceEntry.ok "a" 0 1, TraceEntry.ok "b" 1 2] ∧
    ∀ r, (Except.ok 2 : Except GraphError Nat) = .ok r →
      ∃ n i, lastEntry? [TraceEntry.ok "a" 0 1, TraceEntry.ok "b" 1 2] =
        some (TraceEntry.ok n i r) :=
  C9_state_threading linearGraph 5 "a" 0 (.ok 2)
    [TraceEntry.ok "a" 0 1, TraceEntry.ok "b" 1 2] rfl

theorem lookupStr_insertStr_self {α : Type} (key : String) (v : α) :
    ∀ l : List (String × α), lookupStr (insertStr l key v) key = some v := by
  intro l
  induction l with
  | nil => simp [insertStr, lookupStr]
  | cons p rest ih =>
    obtain ⟨k, w⟩ := p
    simp only [insertStr]
    by_cases h : k == key
    · simp [lookupStr, h]
    · simp [lookupStr, h, ih]

theorem length_insertStr_of_contains {α : Type} (key : String) (v : α) :
    ∀ l : List (String × α), containsKey l key = true →
      (insertStr l key v).length = l.length := by
  intro l
  induction l with
  | nil => intro h; simp [containsKey, lookupStr] at h
  | cons p rest ih =>
    obtain ⟨k, w⟩ := p
    intro h
    simp only [insertStr]
    by_cases hk : k == key
    · simp [hk]
    · simp only [containsKey, lookupStr, hk, Bool.false_eq_true, if_false] at h
      simp [hk, ih h]

theorem lookupStr_insertStr_other {α : Type} (key other : String) (v : α)
    (hne : other ≠ key) :
    ∀ l : List (String × α),
      lookupStr (insertStr l key v) other = lookupStr l other := by
  intro l
  induction l with
  | nil =>
    have : (key == other) = false := by
      simp only [beq_eq_false_iff_ne, ne_eq]
      exact fun hc => hne hc.symm
    simp [insertStr, lookupStr, this]
  | cons p rest ih =>
    obtain ⟨k, w⟩ := p
    by_cases hk : k = key
    · subst hk
      have h2 : (k == other) = false := by
        simp only [beq_eq_false_iff_ne, ne_eq]
        exact fun hc => hne hc.symm
      simp [insertStr, lookupStr, h2]
    · have hk' : (k == key) = false := by
        simp only [beq_eq_false_iff_ne, ne_eq]
        exact hk
      simp only [insertStr, hk', Bool.false_eq_true, if_false]
      simp [lookupStr, ih]

/-- Claim C10: calling `add_node` with an already-registered name replaces
that name's transform with the new one — the node count does not grow — and
leaves every other registered node, the edge list, the conditional-edge
list, and the entry point unchanged. -/
theorem C10_add_node_replaces {T : Type} (g : Graph T) (name : String)
    (f : T → Except String T)
    (h : containsKey g.nodes name = true) :
    lookupStr (g.add_node name f).nodes name = some f ∧
    (g.add_node name f).nodes.length = g.nodes.length ∧
    (∀ k, k ≠ name →
        lookupStr (g.add_node name f).nodes k = lookupStr g.nodes k) ∧
    (g.add_node name f).edges = g.edges ∧
    (g.add_node name f).conditional_edges = g.conditional_edges ∧
    (g.add_node name f).entry_point = g.entry_point :=
  ⟨lookupStr_insertStr_self name f g.nodes,
   length_insertStr_of_contains name f g.nodes h,
   fun k hk => lookupStr_insertStr_other name k f hk g.nodes,
   rfl, rfl, rfl⟩

/-- A one-node builder graph used to witness C10. -/
def oneNodeGraph : Graph Nat :=
  Graph.new.add_node "a" (fun n => .ok n)

/-- Witness for C10: re-registering `"a"` in `oneNodeGraph` replaces its
transform by the increment function and changes nothing else. -/
theorem C10_witness :
    lookupStr (oneNodeGraph.add_node "a" (fun n => .ok (n + 1))).nodes "a" =
      some (fun n => .ok (n + 1)) ∧
    (oneNodeGraph.add_node "a" (fun n => .ok (n + 1))).nodes.length =
      oneNodeGraph.nodes.length ∧
    (∀ k, k ≠ "a" →
        lookupStr (oneNodeGraph.add_node "a" (fun n => .ok (n + 1))).nodes k =
          lookupStr oneNodeGraph.nodes k) ∧
    (oneNodeGraph.add_node "a" (fun n => .ok (n + 1))).edges =
      oneNodeGraph.edges ∧
    (oneNodeGraph.add_node "a" (fun n => .ok (n + 1))).conditional_edges =
      oneNodeGraph.conditional_edges ∧
    (oneNodeGraph.add_node "a" (fun n => .ok (n + 1))).entry_point =
      oneNodeGraph.entry_point :=
  C10_add_node_replaces oneNodeGraph "a" (fun n => .ok (n + 1)) rfl

/-- The builder operations `Graph<T>`'s impl block actually exposes:
`add_node`, `add_edge`, and `add_conditional_edges`. The source has no
`set_entry_point` or `set_finish_point` method and `Graph` has no
`finish_point` field, even though the `NoEntryPoint` error message tells
callers to "Use set_entry_point()". -/
inductive BuilderOp (T : Type) where
  | addNode (name : String) (f : T → Except String T)
  | addEdge (from_ to_ : String)
  | addCondEdges (from_ : String) (condition : T → String)
      (mapping : List (String × String))

/-- Apply one exposed builder operation. -/
def applyOp {T : Type} (g : Graph T) : BuilderOp T → Graph T
  | .addNode name f => g.add_node name f
  | .addEdge from_ to_ => g.add_edge from_ to_
  | .addCondEdges from_ condition mapping =>
      g.add_conditional_edges from_ condition mapping

/-- Build a graph from `Graph::new()` by a sequence of exposed builder
operations. -/
def buildGraph {T : Type} (ops : List (BuilderOp T)) : Graph T :=
  ops.foldl applyOp Graph.new

theorem foldl_applyOp_entry {T : Type} :
    ∀ (ops : List (BuilderOp T)) (g : Graph T),
      (ops.foldl applyOp g).entry_point = g.entry_point := by
  intro ops
  induction ops with
  | nil => intro g; rfl
  | cons op rest ih =>
    intro g
    rw [List.foldl_cons, ih]
    cases op <;> rfl

/-- A graph built by the exposed operations only, with a node, an exit edge,
and no edge sourced from `START`. -/
def builtNoStart : Graph Nat :=
  buildGraph [.addNode "a" (fun n => .ok (n + 1)), .addEdge "a" END]

/-- Claim C7 (documenting the code bug): no sequence of the builder
operations the source exposes can record an entry point — every graph built
from `Graph::new()` has `entry_point = none` — and executing a compiled
graph built without a `START` edge fails with `NoEntryPoint`, the very
error whose message directs callers to the non-existent
`set_entry_point()`. -/
theorem C7_no_entry_point_settable {T : Type} (ops : List (BuilderOp T)) :
    (buildGraph ops).entry_point = none ∧
    ∃ cg : CompiledGraph Nat, builtNoStart.compile = .ok cg ∧
      cg.execute 5 0 = some (.error .NoEntryPoint) := by
  constructor
  · rw [buildGraph, foldl_applyOp_entry]
    rfl
  · exact ⟨_, rfl, rfl⟩

/-- The conditional-branching graph of the spec's testable property, for a
threshold `k`: node `"check"` is the identity and carries the conditional
edge whose predicate answers `"low"` below `k` and `"high"` otherwise, with
mapping `low ↦ increase`, `high ↦ END`; node `"increase"` adds one and has
an unconditional edge back to `"check"`; `START` enters at `"check"`. -/
def counterGraph (k : Int) : CompiledGraph Int :=
  { nodes := [("check", fun s => .ok s), ("increase", fun s => .ok (s + 1))],
    edges := [{ from_ := START, to_ := "check" },
              { from_ := "increase", to_ := "check" }],
    conditional_edges :=
      [{ from_ := "check",
         condition := fun s => if s < k then "low" else "high",
         mapping := [("low", "increase"), ("high", END)] }],
    entry_point := none }

/-- How many invocations of the named node a trace records. -/
def countNode {T : Type} (name : String) : List (TraceEntry T) → Nat
  | [] => 0
  | .ok n _ _ :: rest => (if n == name then 1 else 0) + countNode name rest
  | .fail n _ _ :: rest => (if n == name then 1 else 0) + countNode name rest

theorem counterLoop (k : Int) :
    ∀ (n : Nat) (s : Int), s + n = k →
      ∃ tr, execLoopTrace (counterGraph k) (2 * n + 1) "check" s =
          some (.ok k, tr) ∧ countNode "increase" tr = n := by
  intro n
  induction n with
  | zero =>
    intro s hs
    have hsk : k = s := by push_cast at hs; omega
    subst hsk
    have hnext : (counterGraph k).get_next_node "check" k = some END := by
      simp [counterGraph, CompiledGraph.get_next_node, getNextCond, lookupStr,
        lt_irrefl, END]
    refine ⟨[TraceEntry.ok "check" k k], ?_, rfl⟩
    rw [execLoopTrace]
    have hl1 : lookupStr (counterGraph k).nodes "check" =
        some (fun s => .ok s) := rfl
    rw [hl1]; dsimp only
    rw [hnext]; dsimp only
    have hEE : ((END : String) == END) = true := rfl
    rw [if_pos hEE]
  | succ m ih =>
    intro s hs
    have hlt : s < k := by push_cast at hs; omega
    obtain ⟨tr, htr, hcount⟩ := ih (s + 1) (by push_cast at hs ⊢; omega)
    have hnext1 : (counterGraph k).get_next_node "check" s = some "increase" := by
      simp [counterGraph, CompiledGraph.get_next_node, getNextCond, lookupStr,
        hlt]
    have hnext2 : (counterGraph k).get_next_node "increase" (s + 1) =
        some "check" := rfl
    refine ⟨TraceEntry.ok "check" s s ::
      TraceEntry.ok "increase" s (s + 1) :: tr, ?_, ?_⟩
    · have e1 : 2 * (m + 1) + 1 = ((2 * m + 1) + 1) + 1 := by ring
      rw [e1, execLoopTrace]
      have hl1 : lookupStr (counterGraph k).nodes "check" =
          some (fun s => .ok s) := rfl
      rw [hl1]; dsimp only
      rw [hnext1]; dsimp only
      have hne1 : ¬ ((("increase" : String) == END) = true) := by decide
      rw [if_neg hne1]
      rw [execLoopTrace]
      have hl2 : lookupStr (counterGraph k).nodes "increase" =
          some (fun s => .ok (s + 1)) := rfl
      rw [hl2]; dsimp only
      rw [hnext2]; dsimp only
      have hne2 : ¬ ((("check" : String) == END) = true) := by decide
      rw [if_neg hne2]
      rw [htr]
    · have b1 : (("check" : String) == "increase") = false := by decide
      have b2 : (("increase" : String) == "increase") = true := by decide
      simp only [countNode, b1, b2, Bool.false_eq_true, if_false, if_true,
        hcount]
      omega

/-- Claim C2: for the threshold-`k` counter graph, every initial state
strictly below `k` terminates (here: within `2(k - initial) + 1` loop
iterations) with result `Ok k`, after exactly `k - initial` invocations of
`"increase"`. -/
theorem C2_counter_loop (k initial : Int) (h : initial < k) :
    ∃ tr, (counterGraph k).executeTrace (2 * (k - initial).toNat + 1) initial =
        some (.ok k, tr) ∧
      countNode "increase" tr = (k - initial).toNat ∧
      (counterGraph k).execute (2 * (k - initial).toNat + 1) initial =
        some (.ok k) := by
  obtain ⟨tr, htr, hcount⟩ :=
    counterLoop k (k - initial).toNat initial (by omega)
  have hstart : (counterGraph k).start_node = some "check" := rfl
  refine ⟨tr, ?_, hcount, ?_⟩
  · rw [CompiledGraph.executeTrace, hstart]
    exact htr
  · rw [CompiledGraph.execute, hstart]
    dsimp only
    rw [← execLoopTrace_fst, htr]
    rfl

/-- Witness for C2: from initial state `0` with threshold `3`, the run
returns `Ok 3` after exactly `3` invocations of `"increase"`. -/
theorem C2_witness :
    ∃ tr, (counterGraph 3).executeTrace (2 * ((3 : Int) - 0).toNat + 1) 0 =
        some (.ok 3, tr) ∧
      countNode "increase" tr = ((3 : Int) - 0).toNat ∧
      (counterGraph 3).execute (2 * ((3 : Int) - 0).toNat + 1) 0 =
        some (.ok 3) :=
  C2_counter_loop 3 0 (by decide)

/-- One in-flight execution of a shared compiled graph: the loop's current
node and state, or, once finished, its result. -/
structure ExecConfig (T : Type) where
  current : String
  data : T
  done : Option (Except GraphError T)

/-- One iteration of the `execute` loop body, as a step on a configuration;
a finished configuration is left unchanged. Only the configuration changes:
the graph is read, never written. -/
def stepConfig {T : Type} (g : CompiledGraph T) (cfg : ExecConfig T) :
    ExecConfig T :=
  match cfg.done with
  | some _ => cfg
  | none =>
    match lookupStr g.nodes cfg.current with
    | none => { cfg with done := some (.error (.NodeNotFound cfg.current)) }
    | some f =>
      match f cfg.data with
      | .error e => { cfg with done := some (.error (.ExecutionError e)) }
      | .ok data' =>
        match g.get_next_node cfg.current data' with
        | none => { cfg with data := data', done := some (.ok data') }
        | some next =>
          if next == END then
            { cfg with data := data', done := some (.ok data') }
          else { current := next, data := data', done := none }

/-- `n` loop iterations of one execution. -/
def stepN {T : Type} (g : CompiledGraph T) : Nat → ExecConfig T → ExecConfig T
  | 0, cfg => cfg
  | n + 1, cfg => stepN g n (stepConfig g cfg)

/-- Two executions sharing one compiled graph, interleaved by a schedule:
`true` steps the first, `false` steps the second. -/
def runInterleaved {T : Type} (g : CompiledGraph T) :
    List Bool → ExecConfig T × ExecConfig T → ExecConfig T × ExecConfig T
  | [], p => p
  | b :: rest, (c1, c2) =>
    if b then runInterleaved g rest (stepConfig g c1, c2)
    else runInterleaved g rest (c1, stepConfig g c2)

/-- How many schedule slots the first execution receives. -/
def countTrue : List Bool → Nat
  | [] => 0
  | b :: rest => countTrue rest + (if b then 1 else 0)

/-- How many schedule slots the second execution receives. -/
def countFalse : List Bool → Nat
  | [] => 0
  | b :: rest => countFalse rest + (if b then 0 else 1)

theorem stepConfig_of_done {T : Type} (g : CompiledGraph T)
    (cfg : ExecConfig T) (r : Except GraphError T) (h : cfg.done = some r) :
    stepConfig g cfg = cfg := by
  rw [stepConfig, h]

theorem stepN_of_done {T : Type} (g : CompiledGraph T) :
    ∀ (n : Nat) (cfg : ExecConfig T) (r : Except GraphError T),
      cfg.done = some r → stepN g n cfg = cfg := by
  intro n
  induction n with
  | zero => intro cfg r _; rfl
  | succ m ih =>
    intro cfg r h
    rw [stepN, stepConfig_of_done g cfg r h]
    exact ih cfg r h

theorem stepN_add {T : Type} (g : CompiledGraph T) :
    ∀ (a b : Nat) (cfg : ExecConfig T),
      stepN g (a + b) cfg = stepN g b (stepN g a cfg) := by
  intro a
  induction a with
  | zero => intro b cfg; rw [Nat.zero_add]; rfl
  | succ m ih =>
    intro b cfg
    have e1 : m + 1 + b = (m + b) + 1 := by omega
    rw [e1, stepN, ih, stepN]

theorem runInterleaved_eq_stepN {T : Type} (g : CompiledGraph T) :
    ∀ (sched : List Bool) (c1 c2 : ExecConfig T),
      runInterleaved g sched (c1, c2) =
        (stepN g (countTrue sched) c1, stepN g (countFalse sched) c2) := by
  intro sched
  induction sched with
  | nil => intro c1 c2; rfl
  | cons b rest ih =>
    intro c1 c2
    cases b with
    | true =>
      simp only [runInterleaved, if_true, ih, countTrue, countFalse, if_false]
      rfl
    | false =>
      simp only [runInterleaved, Bool.false_eq_true, if_false, ih, countTrue,
        countFalse, if_true]
      rfl

/-- A configuration that finishes within its fuel agrees with the
`execute` loop on the result. -/
theorem stepN_done_execLoop {T : Type} (g : CompiledGraph T) :
    ∀ (n : Nat) (cfg : ExecConfig T) (r : Except GraphError T),
      cfg.done = none → (stepN g n cfg).done = some r →
      execLoop g n cfg.current cfg.data = some r := by
  intro n
  induction n with
  | zero =>
    intro cfg r h0 h
    rw [stepN, h0] at h
    exact absurd h (by simp)
  | succ m ih =>
    intro cfg r h0 h
    obtain ⟨c, d, dn⟩ := cfg
    simp only at h0
    subst h0
    rw [stepN] at h
    rw [execLoop]
    simp only [stepConfig] at h
    cases h1 : lookupStr g.nodes c with
    | none =>
      rw [h1] at h
      dsimp only at h
      rw [stepN_of_done g m _ _ rfl] at h
      simp only at h
      rw [← h]
    | some f =>
      rw [h1] at h
      dsimp only at h ⊢
      cases h2 : f d with
      | error e =>
        rw [h2] at h
        dsimp only at h
        rw [stepN_of_done g m _ _ rfl] at h
        simp only at h
        simp only [h2]
        rw [← h]
      | ok data' =>
        rw [h2] at h
        dsimp only at h
        cases h3 : g.get_next_node c data' with
        | none =>
          rw [h3] at h
          dsimp only at h
          rw [stepN_of_done g m _ _ rfl] at h
          simp only at h
          simp only [h2, h3]
          rw [← h]
        | some next =>
          rw [h3] at h
          dsimp only at h
          by_cases h4 : (next == END) = true
          · rw [if_pos h4] at h
            rw [stepN_of_done g m _ _ rfl] at h
            simp only at h
            simp only [h2, h3]
            rw [if_pos h4, ← h]
          · rw [if_neg h4] at h
            simp only [h2, h3]
            rw [if_neg h4]
            exact ih ⟨next, data', none⟩ r rfl h

/-- Claim C8: two interleaved `execute` runs on the same compiled graph
never interfere — under any schedule giving each run enough slots, each
ends with exactly the result it produces when run alone (which is what
`execute` returns for its own initial state), because execution reads the
shared graph and mutates only its own configuration. -/
theorem C8_concurrent_independence {T : Type} (g : CompiledGraph T)
    (sched : List Bool) (st : String) (s1 s2 : T)
    (r1 r2 : Except GraphError T) (n1 n2 : Nat)
    (h0 : g.start_node = some st)
    (h1 : (stepN g n1 ⟨st, s1, none⟩).done = some r1)
    (h2 : (stepN g n2 ⟨st, s2, none⟩).done = some r2)
    (h3 : n1 ≤ countTrue sched)
    (h4 : n2 ≤ countFalse sched) :
    (runInterleaved g sched (⟨st, s1, none⟩, ⟨st, s2, none⟩)).1.done =
      some r1 ∧
    (runInterleaved g sched (⟨st, s1, none⟩, ⟨st, s2, none⟩)).2.done =
      some r2 ∧
    g.execute n1 s1 = some r1 ∧ g.execute n2 s2 = some r2 := by
  have k1 : stepN g (countTrue sched) (⟨st, s1, none⟩ : ExecConfig T) =
      stepN g n1 ⟨st, s1, none⟩ := by
    rw [← Nat.add_sub_cancel' h3, stepN_add,
      stepN_of_done g _ _ _ h1]
  have k2 : stepN g (countFalse sched) (⟨st, s2, none⟩ : ExecConfig T) =
      stepN g n2 ⟨st, s2, none⟩ := by
    rw [← Nat.add_sub_cancel' h4, stepN_add,
      stepN_of_done g _ _ _ h2]
  refine ⟨?_, ?_, ?_, ?_⟩
  · rw [runInterleaved_eq_stepN]
    dsimp only
    rw [k1]
    exact h1
  · rw [runInterleaved_eq_stepN]
    dsimp only
    rw [k2]
    exact h2
  · rw [CompiledGraph.execute, h0]
    exact stepN_done_execLoop g n1 ⟨st, s1, none⟩ r1 rfl h1
  · rw [CompiledGraph.execute, h0]
    exact stepN_done_execLoop g n2 ⟨st, s2, none⟩ r2 rfl h2

/-- Witness for C8: on `linearGraph`, the runs with initial states `0` and
`10` each take two iterations; interleaved under the schedule
`[true, true, false, false]` they end with `Ok 2` and `Ok 12`, exactly the
run-alone `execute` results. -/
theorem C8_witness :
    (runInterleaved linearGraph [true, true, false, false]
        (⟨"a", 0, none⟩, ⟨"a", 10, none⟩)).1.done = some (.ok 2) ∧
    (runInterleaved linearGraph [true, true, false, false]
        (⟨"a", 0, none⟩, ⟨"a", 10, none⟩)).2.done = some (.ok 12) ∧
    linearGraph.execute 2 0 = some (.ok 2) ∧
    linearGraph.execute 2 10 = some (.ok 12) :=
  C8_concurrent_independence linearGraph [true, true, false, false] "a" 0 10
    (.ok 2) (.ok 12) 2 2 rfl rfl rfl (by decide) (by decide)

end AiGraph
